import Mathlib

/-!
Shallow embedding of the "what's for dinner" recommender core
(`src/recommender/ingredient_parser.py`, `src/recommender/weekly_planner.py`,
`src/recommender/preference_updater.py`).

Strings are modelled as `List Char`; each regular-expression substitution used
by the source is embedded as a dedicated scanning function implementing that
pattern's semantics (leftmost, non-overlapping, greedy, alternatives tried in
order).  Python floats are modelled by `ℚ`.
-/

namespace WFD

/-- ASCII decimal digit, Python regex class `\d` on ASCII input. -/
def isDigitCh (c : Char) : Bool := c.isDigit

/-- Python regex class `\s` (ASCII): space, tab, newline, carriage return,
vertical tab, form feed. -/
def isSpaceCh (c : Char) : Bool :=
  c = ' ' || c = '\t' || c = '\n' || c = '\r' || c = '\x0b' || c = '\x0c'

/-- Python regex word character (ASCII): letters, digits, underscore. -/
def isWordCh (c : Char) : Bool := c.isAlphanum || c = '_'

/-- Python `str.lower()` on ASCII input. -/
def pyLower (l : List Char) : List Char := l.map Char.toLower

/-- Python `str.strip()`: remove leading and trailing whitespace. -/
def pyStrip (l : List Char) : List Char :=
  ((l.dropWhile isSpaceCh).reverse.dropWhile isSpaceCh).reverse

/-- Helper for `removeParens`: drop characters through the first `)`,
returning the suffix after it, or `none` when no `)` exists. -/
def dropThroughRParen : List Char → Option (List Char)
  | [] => none
  | c :: rest => if c = ')' then some rest else dropThroughRParen rest

theorem dropThroughRParen_length {l l' : List Char}
    (h : dropThroughRParen l = some l') : l'.length < l.length := by
  induction l with
  | nil => simp [dropThroughRParen] at h
  | cons c rest ih =>
    simp only [dropThroughRParen] at h
    split at h
    · injection h with h; subst h; simp
    · have := ih h; simp; omega

/-- Scanning loop of `re.sub(r'\([^)]*\)', '', text)`.  The fuel argument is
only a structural-recursion device: every step consumes at least one input
character, so `fuel = input length` never runs out. -/
def removeParensGo : Nat → List Char → List Char
  | 0, l => l
  | _ + 1, [] => []
  | fuel + 1, c :: rest =>
    if c = '(' then
      match dropThroughRParen rest with
      | some after => removeParensGo fuel after
      | none => c :: removeParensGo fuel rest
    else c :: removeParensGo fuel rest

/-- Embedding of `re.sub(r'\([^)]*\)', '', text)`: remove each `(`-to-first-`)`
span; a `(` with no later `)` is kept. -/
def removeParens (l : List Char) : List Char := removeParensGo l.length l

theorem dropWhile_length_le (p : Char → Bool) (l : List Char) :
    (l.dropWhile p).length ≤ l.length := by
  induction l with
  | nil => simp
  | cons c rest ih =>
    simp only [List.dropWhile]
    split
    · simp; omega
    · simp

/-- Greedy `[\s-]?`: consume one leading whitespace or hyphen if present. -/
def optSpaceHyphen : List Char → List Char
  | [] => []
  | d :: r => if isSpaceCh d || d = '-' then r else d :: r

theorem optSpaceHyphen_length_le (l : List Char) : (optSpaceHyphen l).length ≤ l.length := by
  cases l with
  | nil => simp [optSpaceHyphen]
  | cons d r => simp only [optSpaceHyphen]; split <;> simp

/-- Greedy `\/?`: consume one leading slash if present. -/
def optSlash : List Char → List Char
  | '/' :: r => r
  | l => l

theorem optSlash_length_le (l : List Char) : (optSlash l).length ≤ l.length := by
  match l with
  | [] => simp [optSlash]
  | c :: r =>
    by_cases h : c = '/'
    · subst h; simp [optSlash]
    · have : optSlash (c :: r) = c :: r := by
        unfold optSlash
        split
        · simp_all
        · rfl
      simp [this]

/-- Suffix remaining after the greedy match of `\d+[\s-]?\d*\/?\d*` whose
leading `\d+` consumed one digit already; `rest` is the input after that
digit. -/
def numTail (rest : List Char) : List Char :=
  ((optSlash ((optSpaceHyphen (rest.dropWhile isDigitCh)).dropWhile isDigitCh)).dropWhile isDigitCh)

theorem numTail_length_le (rest : List Char) : (numTail rest).length ≤ rest.length := by
  unfold numTail
  calc ((optSlash ((optSpaceHyphen (rest.dropWhile isDigitCh)).dropWhile isDigitCh)).dropWhile isDigitCh).length
      ≤ (optSlash ((optSpaceHyphen (rest.dropWhile isDigitCh)).dropWhile isDigitCh)).length :=
        dropWhile_length_le _ _
    _ ≤ ((optSpaceHyphen (rest.dropWhile isDigitCh)).dropWhile isDigitCh).length :=
        optSlash_length_le _
    _ ≤ (optSpaceHyphen (rest.dropWhile isDigitCh)).length := dropWhile_length_le _ _
    _ ≤ (rest.dropWhile isDigitCh).length := optSpaceHyphen_length_le _
    _ ≤ rest.length := dropWhile_length_le _ _

/-- Scanning loop of `re.sub(r'\d+[\s-]?\d*\/?\d*', '', text)`; fuel as in
`removeParensGo`. -/
def subNumbersGo : Nat → List Char → List Char
  | 0, l => l
  | _ + 1, [] => []
  | fuel + 1, c :: rest =>
    if isDigitCh c then subNumbersGo fuel (numTail rest)
    else c :: subNumbersGo fuel rest

/-- Embedding of `re.sub(r'\d+[\s-]?\d*\/?\d*', '', text)`. -/
def subNumbers (l : List Char) : List Char := subNumbersGo l.length l

/-- Word boundary `\b` between an optional previous character and the
character `c` about to be read. -/
def boundaryBefore (prev : Option Char) (c : Char) : Bool :=
  (match prev with | some p => isWordCh p | none => false) != isWordCh c

/-- Word boundary `\b` between the last matched character and the rest of the
input. -/
def boundaryAfter (lastc : Char) (rest : List Char) : Bool :=
  isWordCh lastc != (match rest.head? with | some d => isWordCh d | none => false)

/-- Try the alternatives of `\b(a1|a2|...)\b` in order at the current
position (leading boundary already checked); on success return the last
character of the matched alternative and the remaining input. -/
def tryAlts (alts : List (List Char)) (l : List Char) : Option (Char × List Char) :=
  match alts with
  | [] => none
  | a :: more =>
    match a.getLast? with
    | none => tryAlts more l
    | some lastc =>
      if a.isPrefixOf l then
        if boundaryAfter lastc (l.drop a.length) then some (lastc, l.drop a.length)
        else tryAlts more l
      else tryAlts more l

theorem tryAlts_length {alts : List (List Char)} {l : List Char} {lc : Char}
    {rem : List Char} (h : tryAlts alts l = some (lc, rem)) : rem.length < l.length := by
  induction alts with
  | nil => simp [tryAlts] at h
  | cons a more ih =>
    simp only [tryAlts] at h
    rcases hg : a.getLast? with _ | lastc <;> simp only [hg] at h
    · exact ih h
    · split at h
      · split at h
        · injection h with h; cases h
          rename_i hpre _
          have ha : a ≠ [] := by
            intro hnil; rw [hnil] at hg; simp [List.getLast?] at hg
          have halen : 1 ≤ a.length := by
            cases a with
            | nil => exact absurd rfl ha
            | cons x xs => simp
          have hle : a.length ≤ l.length :=
            List.IsPrefix.length_le (List.isPrefixOf_iff_prefix.mp hpre)
          simp [List.length_drop]
          omega
        · exact ih h
      · exact ih h

/-- Scanning loop of `re.sub(r'\b(a1|a2|...)\b', '', text)`; `prev` is the
character before the current position in the original string (matches are
found against the original string, non-overlapping, left to right); fuel as
in `removeParensGo`. -/
def subWordAltGo (alts : List (List Char)) : Nat → Option Char → List Char → List Char
  | 0, _, l => l
  | _ + 1, _, [] => []
  | fuel + 1, prev, c :: rest =>
    if boundaryBefore prev c then
      match tryAlts alts (c :: rest) with
      | some (lastc, remaining) => subWordAltGo alts fuel (some lastc) remaining
      | none => c :: subWordAltGo alts fuel (some c) rest
    else c :: subWordAltGo alts fuel (some c) rest

/-- Embedding of `re.sub(r'\b(a1|a2|...)\b', '', text)`. -/
def subWordAlt (alts : List (List Char)) (l : List Char) : List Char :=
  subWordAltGo alts l.length none l

/-- Embedding of `re.sub(r'[,;].*$', '', text)` (no MULTILINE, no DOTALL:
`.` does not cross a newline and `$` matches only at the end of the string or
just before a trailing newline). -/
def subCommaSemi : List Char → List Char
  | [] => []
  | c :: rest =>
    if c = ',' || c = ';' then
      let remaining := rest.dropWhile (fun d => !(d = '\n'))
      if remaining.isEmpty || remaining = ['\n'] then remaining
      else c :: subCommaSemi rest
    else c :: subCommaSemi rest

/-- Scanning loop of `re.sub(r'\s+', ' ', text)`; fuel as in
`removeParensGo`. -/
def collapseWsGo : Nat → List Char → List Char
  | 0, l => l
  | _ + 1, [] => []
  | fuel + 1, c :: rest =>
    if isSpaceCh c then ' ' :: collapseWsGo fuel (rest.dropWhile isSpaceCh)
    else c :: collapseWsGo fuel rest

/-- Embedding of `re.sub(r'\s+', ' ', text)`: replace each maximal whitespace
run by a single space. -/
def collapseWs (l : List Char) : List Char := collapseWsGo l.length l

/-- The plural-to-singular suffix rules of `normalize_ingredient_name`. -/
def singularize (l : List Char) : List Char :=
  if ['i','e','s'].isSuffixOf l then l.dropLast.dropLast.dropLast ++ ['y']
  else if ['o','e','s'].isSuffixOf l then l.dropLast.dropLast
  else if ['s','e','s'].isSuffixOf l then l.dropLast.dropLast
  else if ['s'].isSuffixOf l && decide (l.length > 3) then l.dropLast
  else l

/-- Unit words of the second measurements pattern, in source alternation
order. -/
def unitWords : List (List Char) :=
  ["cup".data, "cups".data, "tablespoon".data, "tablespoons".data, "teaspoon".data,
   "teaspoons".data, "tbsp".data, "tsp".data, "oz".data, "ounce".data, "ounces".data,
   "pound".data, "pounds".data, "lb".data, "lbs".data, "gram".data, "grams".data,
   "g".data, "kg".data, "ml".data, "l".data, "litre".data, "liter".data]

/-- Container words of the third measurements pattern. -/
def containerWords : List (List Char) :=
  ["can".data, "cans".data, "jar".data, "jars".data, "package".data, "packages".data,
   "bunch".data, "bunches".data, "clove".data, "cloves".data, "head".data,
   "heads".data, "pinch".data, "dash".data, "handful".data]

/-- The fourth measurements pattern removes the lone word "to". -/
def toWords : List (List Char) := ["to".data]

/-- First preparation pattern: freshness and state descriptors. -/
def freshnessWords : List (List Char) :=
  ["fresh".data, "frozen".data, "dried".data, "canned".data, "jarred".data,
   "organic".data, "raw".data, "cooked".data]

/-- Second preparation pattern: preparation methods. -/
def prepMethodWords : List (List Char) :=
  ["chopped".data, "diced".data, "minced".data, "sliced".data, "grated".data,
   "shredded".data, "crushed".data, "whole".data, "halved".data, "quartered".data]

/-- Third preparation pattern: adverbs. -/
def adverbWords : List (List Char) :=
  ["finely".data, "coarsely".data, "roughly".data, "thinly".data, "thickly".data]

/-- Fourth preparation pattern: serving phrases, in source alternation order. -/
def servingWords : List (List Char) :=
  ["optional".data, "or to taste".data, "to taste".data, "as needed".data,
   "for serving".data, "for garnish".data]

/-- Fifth preparation pattern: connector phrases. -/
def connectorWords : List (List Char) :=
  ["plus more".data, "and".data, "or".data]

/-- Article words removed at the end of normalization. -/
def articleWords : List (List Char) := ["a".data, "an".data, "the".data]

/-- Embedding of `normalize_ingredient_name` from
`src/recommender/ingredient_parser.py` (lines 30-94): lowercase and strip;
remove parenthesised asides; remove quantities and measurement words; remove
preparation descriptors and everything after a comma or semicolon; collapse
whitespace; apply plural-to-singular suffix rules; remove articles. -/
def normalize_ingredient_name (ingredient_string : String) : String :=
  let text := pyStrip (pyLower ingredient_string.data)
  let text := removeParens text
  let text := subNumbers text
  let text := subWordAlt unitWords text
  let text := subWordAlt containerWords text
  let text := subWordAlt toWords text
  let text := subWordAlt freshnessWords text
  let text := subWordAlt prepMethodWords text
  let text := subWordAlt adverbWords text
  let text := subWordAlt servingWords text
  let text := subWordAlt connectorWords text
  let text := subCommaSemi text
  let text := pyStrip (collapseWs text)
  let text := singularize text
  let text := pyStrip (subWordAlt articleWords text)
  String.mk text

/-- The curated pantry-staple set `PANTRY_STAPLES` (the Python set literal,
kept in source order; set iteration order never affects the boolean result
below). -/
def PANTRY_STAPLES : List String :=
  ["salt", "kosher salt", "sea salt",
   "ground black pepper", "ground white pepper",
   "olive oil", "vegetable oil", "canola oil", "cooking oil", "oil",
   "butter", "unsalted butter", "salted butter",
   "water", "ice", "ice water",
   "sugar", "brown sugar", "white sugar", "granulated sugar", "powdered sugar",
   "flour", "all-purpose flour", "bread flour",
   "baking powder", "baking soda",
   "vanilla", "vanilla extract",
   "garlic powder", "onion powder"]

/-- Substring containment (Python `in` on strings). -/
def containsSeq (pat : List Char) : List Char → Bool
  | [] => pat.isEmpty
  | c :: rest => pat.isPrefixOf (c :: rest) || containsSeq pat rest

/-- Embedding of `re.search(r'\b' + re.escape(staple) + r'\b', text)`:
does `pat` occur somewhere in the input flanked by word boundaries?  `prev`
is the character just before the current position. -/
def wordBoundedOccur (pat : List Char) : Option Char → List Char → Bool
  | _, [] => false
  | prev, c :: rest =>
    (match pat.getLast? with
     | some lastc =>
        boundaryBefore prev c && pat.isPrefixOf (c :: rest) &&
          boundaryAfter lastc ((c :: rest).drop pat.length)
     | none => false) || wordBoundedOccur pat (some c) rest

/-- Embedding of `is_pantry_staple` (lines 97-126): direct match against the
staple set, else substring containment for multi-word staples and
word-boundary search for single-word staples. -/
def is_pantry_staple (ingredient : String) : Bool :=
  let ingredient_lower := pyStrip (pyLower ingredient.data)
  if PANTRY_STAPLES.any (fun st => st.data == ingredient_lower) then true
  else
    PANTRY_STAPLES.any (fun staple =>
      if staple.data.contains ' ' then containsSeq staple.data ingredient_lower
      else wordBoundedOccur staple.data none ingredient_lower)

example : normalize_ingredient_name "2 cups diced red onions" = "red onion" := by decide
example : normalize_ingredient_name "1 (15oz) can black beans, drained" = "black bean" := by decide
example : normalize_ingredient_name "3 cloves garlic, minced" = "garlic" := by decide
example : normalize_ingredient_name "1/2 cup fresh basil leaves" = "basil leave" := by decide
example : normalize_ingredient_name "Salt and pepper to taste" = "salt pepper taste" := by decide
example : is_pantry_staple "salt pepper taste" = true := by decide
example : is_pantry_staple "salt" = true := by decide
example : is_pantry_staple "red pepper flakes" = false := by decide
example : is_pantry_staple "olive oil" = true := by decide
example : is_pantry_staple "boiled" = false := by decide

/-- Character class `[\d\s\/\-\(\)\.]` of the quantity pattern. -/
def isQtyCh (c : Char) : Bool :=
  isDigitCh c || isSpaceCh c || c = '/' || c = '-' || c = '(' || c = ')' || c = '.'

/-- Unit alternatives of `extract_quantity_from_ingredient`, in source
alternation order (this pattern also lists packet/packets and has no trailing
word boundary). -/
def quantityUnitWords : List (List Char) :=
  ["cup".data, "cups".data, "tablespoon".data, "tablespoons".data, "teaspoon".data,
   "teaspoons".data, "tbsp".data, "tsp".data, "oz".data, "ounce".data, "ounces".data,
   "pound".data, "pounds".data, "lb".data, "lbs".data, "gram".data, "grams".data,
   "g".data, "kg".data, "ml".data, "l".data, "litre".data, "liter".data,
   "can".data, "cans".data, "jar".data, "jars".data, "package".data,
   "packages".data, "packet".data, "packets".data, "bunch".data, "bunches".data,
   "clove".data, "cloves".data, "head".data, "heads".data]

/-- Length of the first alternative that is a prefix of `l` (alternatives in
pattern order, no boundary requirement), or 0 when none matches. -/
def firstAltPrefixLen (alts : List (List Char)) (l : List Char) : Nat :=
  match alts with
  | [] => 0
  | a :: more => if a.isPrefixOf l then a.length else firstAltPrefixLen more l

/-- Embedding of `extract_quantity_from_ingredient` (lines 129-149):
`re.match` of `^[\d\s\/\-\(\)\.]+(?:unit)?` (IGNORECASE) against the stripped
input; the matched text (original case) is stripped and returned, or the
empty string when the leading character class matches nothing. -/
def extract_quantity_from_ingredient (ingredient_string : String) : String :=
  let text := pyStrip ingredient_string.data
  let leading := text.takeWhile isQtyCh
  if leading.isEmpty then ""
  else
    let rest := text.drop leading.length
    let unitLen := firstAltPrefixLen quantityUnitWords (pyLower rest)
    String.mk (pyStrip (leading ++ rest.take unitLen))

/-- One entry of a recipe's parsed ingredient list: either a structured
record carrying an `original` text field (an absent key modelled as `none`,
read back as the empty string) or a bare value rendered to text
(`str(ingredient)`). -/
inductive IngEntry
  | structured (original : Option String)
  | plainText (s : String)
deriving DecidableEq

/-- The `original` text of an entry, as read by the extraction loops. -/
def IngEntry.originalText : IngEntry → String
  | .structured o => o.getD ""
  | .plainText s => s

/-- A recipe's `ingredients` field: either an already-parsed sequence or a
serialized (JSON string) form that still requires a parse step. -/
inductive IngredientsField
  | parsed (entries : List IngEntry)
  | serialized (raw : String)
deriving DecidableEq

/-- The recipe record as consumed by the recommender core (the ORM fields the
core reads; nullable columns are `Option`). -/
structure Recipe where
  id : Int
  title : String
  ingredients : IngredientsField
  cuisine_type : Option String
  dish_type : Option String
  difficulty : Option String
  ready_in_minutes : Option Int
deriving DecidableEq

/-- Entry list a recipe contributes (lines 164-171): an already-parsed
sequence is used as is; a serialized form goes through `json.loads`, a parse
failure yielding the empty list.  The external `json` library is abstracted
as the function argument `parse`. -/
def entriesOf (parse : String → Option (List IngEntry)) (r : Recipe) : List IngEntry :=
  match r.ingredients with
  | .parsed es => es
  | .serialized raw => (parse raw).getD []

/-- Normalized names of one recipe that survive the empty/staple filter
(lines 173-185). -/
def keptNames (parse : String → Option (List IngEntry)) (r : Recipe) : List String :=
  ((entriesOf parse r).map (fun e => normalize_ingredient_name e.originalText)).filter
    (fun n => !(n == "") && !(is_pantry_staple n))

/-- Embedding of `extract_unique_ingredients` (lines 152-187): the set of
normalized, non-empty, non-staple ingredient names across the recipes. -/
def extract_unique_ingredients (parse : String → Option (List IngEntry))
    (recipes : List Recipe) : Finset String :=
  recipes.foldl (fun acc r => acc ∪ (keptNames parse r).toFinset) ∅

/-- Embedding of `count_ingredients_for_recipes` (lines 249-259). -/
def count_ingredients_for_recipes (parse : String → Option (List IngEntry))
    (recipes : List Recipe) : Nat :=
  (extract_unique_ingredients parse recipes).card

/-- Python `round(x, ndigits)` at integer scale: round half to even. -/
def pyRoundHalfEven (x : ℚ) : ℤ :=
  if x - ⌊x⌋ < 1/2 then ⌊x⌋
  else if 1/2 < x - ⌊x⌋ then ⌊x⌋ + 1
  else if Even ⌊x⌋ then ⌊x⌋ else ⌊x⌋ + 1

/-- Python `round(x, ndigits)` on the rational model of floats. -/
def pyRound (x : ℚ) (ndigits : Nat) : ℚ :=
  (pyRoundHalfEven (x * (10 : ℚ) ^ ndigits) : ℚ) / (10 : ℚ) ^ ndigits

/-- The record returned by `calculate_ingredient_savings`. -/
structure SavingsInfo where
  total_ingredients : Nat
  ingredients_if_separate : Nat
  savings : Int
  overlap_percentage : ℚ
deriving DecidableEq

/-- Embedding of `calculate_ingredient_savings` (lines 279-308). -/
def calculate_ingredient_savings (parse : String → Option (List IngEntry))
    (recipes : List Recipe) : SavingsInfo :=
  let total_ingredients := count_ingredients_for_recipes parse recipes
  let ingredients_if_separate :=
    (recipes.map (fun recipe => count_ingredients_for_recipes parse [recipe])).sum
  let savings : Int := (ingredients_if_separate : Int) - (total_ingredients : Int)
  let overlap_percentage : ℚ :=
    if 0 < ingredients_if_separate then
      (savings : ℚ) / (ingredients_if_separate : ℚ) * 100
    else 0
  { total_ingredients := total_ingredients,
    ingredients_if_separate := ingredients_if_separate,
    savings := savings,
    overlap_percentage := pyRound overlap_percentage 1 }

/-- One usage record of `extract_ingredients_with_details`. -/
structure IngredientUse where
  recipe : String
  quantity : String
  original : String
deriving DecidableEq

/-- Append a usage under a key in the insertion-ordered map (Python dict:
existing key keeps its position, new key goes to the end). -/
def addUse (m : List (String × List IngredientUse)) (key : String)
    (use : IngredientUse) : List (String × List IngredientUse) :=
  match m with
  | [] => [(key, [use])]
  | (k, us) :: rest =>
    if k = key then (k, us ++ [use]) :: rest else (k, us) :: addUse rest key use

/-- Embedding of `extract_ingredients_with_details` (lines 190-246). -/
def extract_ingredients_with_details (parse : String → Option (List IngEntry))
    (recipes : List Recipe) : List (String × List IngredientUse) :=
  recipes.foldl (fun m r =>
    (entriesOf parse r).foldl (fun m e =>
      let original := e.originalText
      let normalized := normalize_ingredient_name original
      if normalized == "" || is_pantry_staple normalized then m
      else
        let quantity := extract_quantity_from_ingredient original
        addUse m normalized
          { recipe := r.title,
            quantity := if quantity == "" then "as needed" else quantity,
            original := original }) m) []

/-- Python truthiness of a nullable string: false for `None` and `""`. -/
def strTruthy : Option String → Bool
  | none => false
  | some s => !(s == "")

/-- Python truthiness of a nullable integer: false for `None` and `0`. -/
def intTruthy : Option Int → Bool
  | none => false
  | some n => !(n == 0)

/-- A row of the `user_preferences` table as the core reads and writes it. -/
structure UserPreference where
  user_id : Int
  preference_type : String
  preference_value : String
  score : ℚ
  last_updated : Nat
deriving DecidableEq

/-- The `pref_lookup` dict of `score_recipe_for_user` (lines 76-80), read
through `dict.get(key, 0.0)`: later rows overwrite earlier ones, absent keys
default to 0. -/
def buildPrefLookup (prefs : List UserPreference) : String × String → ℚ :=
  prefs.foldl
    (fun m p key =>
      if key = (p.preference_type, p.preference_value) then p.score else m key)
    (fun _ => 0)

/-- The cooking-time bucket of `score_recipe_for_user` lines 96-101 (the
identical bucket appears in `update_preferences_from_rating` lines 155-160). -/
def timeBucket (t : Int) : String :=
  if t < 30 then "quick (<30min)"
  else if t ≤ 60 then "medium (30-60min)"
  else "long (>60min)"

/-- Embedding of `score_recipe_for_user` from
`src/recommender/weekly_planner.py` (lines 63-104): start from 0 and add the
looked-up preference for each attribute whose value is truthy. -/
def score_recipe_for_user (recipe : Recipe) (user_preferences : List UserPreference) : ℚ :=
  let pref_lookup := buildPrefLookup user_preferences
  let score : ℚ := 0
  let score := if strTruthy recipe.cuisine_type then
      score + pref_lookup ("cuisine_type", recipe.cuisine_type.getD "") else score
  let score := if strTruthy recipe.dish_type then
      score + pref_lookup ("dish_type", recipe.dish_type.getD "") else score
  let score := if strTruthy recipe.difficulty then
      score + pref_lookup ("difficulty", recipe.difficulty.getD "") else score
  let score := if intTruthy recipe.ready_in_minutes then
      score + pref_lookup ("cooking_time", timeBucket (recipe.ready_in_minutes.getD 0))
    else score
  score

/-- Embedding of `calculate_score_delta` from
`src/recommender/preference_updater.py` (lines 21-38): `(rating - 3) * 1.0`. -/
def calculate_score_delta (rating : Int) : ℚ := ((rating - 3 : Int) : ℚ) * 1

/-- Update the first row matching `(user_id, type, value)` — the ORM
`.first()` — adding the delta to its score and stamping it; `none` when no
row matches. -/
def applyDeltaFirst (uid : Int) (ptype pvalue : String) (delta : ℚ) (now : Nat) :
    List UserPreference → Option (List UserPreference)
  | [] => none
  | p :: rest =>
    if p.user_id == uid && p.preference_type == ptype && p.preference_value == pvalue then
      some ({ p with score := p.score + delta, last_updated := now } :: rest)
    else
      match applyDeltaFirst uid ptype pvalue delta now rest with
      | some rest2 => some (p :: rest2)
      | none => none

/-- Embedding of `update_user_preference` (lines 41-100): a falsy value is a
silent no-op; otherwise the first matching row gets the delta added (and a
fresh timestamp), or a new row with score = delta is inserted.  `now` stands
for `datetime.utcnow()`. -/
def update_user_preference (user_id : Int) (preference_type : String)
    (preference_value : Option String) (score_delta : ℚ) (now : Nat)
    (table : List UserPreference) : List UserPreference :=
  if !(strTruthy preference_value) then table
  else
    let v := preference_value.getD ""
    match applyDeltaFirst user_id preference_type v score_delta now table with
    | some table2 => table2
    | none =>
      table ++ [{ user_id := user_id, preference_type := preference_type,
                  preference_value := v, score := score_delta, last_updated := now }]

/-- Embedding of `update_preferences_from_rating` (lines 103-171): look up
the rated recipe (a missing recipe is a no-op), convert the rating to a
delta, and update the four attribute preferences in order, each guarded by
truthiness of the recipe attribute. -/
def update_preferences_from_rating (recipe : Option Recipe) (user_id : Int)
    (rating : Int) (now : Nat) (table : List UserPreference) : List UserPreference :=
  match recipe with
  | none => table
  | some r =>
    let score_delta := calculate_score_delta rating
    let table := if strTruthy r.cuisine_type then
        update_user_preference user_id "cuisine_type" r.cuisine_type score_delta now table
      else table
    let table := if strTruthy r.dish_type then
        update_user_preference user_id "dish_type" r.dish_type score_delta now table
      else table
    let table := if strTruthy r.difficulty then
        update_user_preference user_id "difficulty" r.difficulty score_delta now table
      else table
    let table := if intTruthy r.ready_in_minutes then
        update_user_preference user_id "cooking_time"
          (some (timeBucket (r.ready_in_minutes.getD 0))) score_delta now table
      else table
    table

/-- The `itertools.combinations` enumeration: all size-`k` sublists of `l`
in lexicographic order of positions. -/
def combinationsList : Nat → List α → List (List α)
  | 0, _ => [[]]
  | _ + 1, [] => []
  | k + 1, x :: xs => (combinationsList k xs).map (x :: ·) ++ combinationsList (k + 1) xs

/-- The planning failure of `get_weekly_recommendations` line 145-148 — the
spec's `InsufficientPoolError` (`ValueError` in the source). -/
inductive PlanError
  | insufficientPool (needed : Nat) (available : Nat)
deriving DecidableEq

/-- The per-combination stats dict built inside the search loop
(lines 211-216). -/
structure ComboStats where
  ingredient_count : Nat
  avg_preference_score : ℚ
  combined_score : ℚ
  individual_scores : List (Int × ℚ)
deriving DecidableEq

/-- The full stats record of the returned plan (lines 243-249). -/
structure PlanStats where
  ingredient_count : Nat
  avg_preference_score : ℚ
  combined_score : ℚ
  individual_scores : List (Int × ℚ)
  savings : SavingsInfo
  unique_ingredients : List String
  detailed_ingredients : List (String × List IngredientUse)
  max_ingredients_budget : Int
  within_budget : Bool

/-- The `recipe_scores` dict (lines 165-168), keyed by recipe id with later
writes overwriting earlier ones; missing ids default to 0 (the source never
reads a missing id). -/
def buildScores (prefs : List UserPreference) (pool : List Recipe) : Int → ℚ :=
  pool.foldl
    (fun m r i => if i = r.id then score_recipe_for_user r prefs else m i)
    (fun _ => 0)

/-- Insert into the `{r.id: score}` dict (line 215): an existing key keeps
its position and value is overwritten, a new key goes to the end. -/
def dictInsertScore (m : List (Int × ℚ)) (key : Int) (v : ℚ) : List (Int × ℚ) :=
  match m with
  | [] => [(key, v)]
  | (k, w) :: rest =>
    if k = key then (k, v) :: rest else (k, w) :: dictInsertScore rest key v

/-- The `individual_scores` dict for a combination. -/
def individualScores (scores : Int → ℚ) (combo : List Recipe) : List (Int × ℚ) :=
  combo.foldl (fun m r => dictInsertScore m r.id (scores r.id)) []

/-- Unique-ingredient count of a combination (line 196). -/
def comboIngredientCount (parse : String → Option (List IngEntry))
    (combo : List Recipe) : Nat :=
  count_ingredients_for_recipes parse combo

/-- Average preference score of a combination (line 199). -/
def comboAvgPref (scores : Int → ℚ) (num_recipes : Nat) (combo : List Recipe) : ℚ :=
  (combo.map (fun r => scores r.id)).sum / (num_recipes : ℚ)

/-- Combined score of a combination (lines 205-206): average preference minus
half the ingredient-budget overage. -/
def comboCombined (parse : String → Option (List IngEntry)) (scores : Int → ℚ)
    (num_recipes : Nat) (budget : Int) (combo : List Recipe) : ℚ :=
  let ingredient_count := comboIngredientCount parse combo
  let ingredient_penalty : Int :=
    if (ingredient_count : Int) > budget then (ingredient_count : Int) - budget else 0
  comboAvgPref scores num_recipes combo - (ingredient_penalty : ℚ) * (1 / 2)

/-- The stats dict stored when a combination becomes the best so far. -/
def mkComboStats (parse : String → Option (List IngEntry)) (scores : Int → ℚ)
    (num_recipes : Nat) (budget : Int) (combo : List Recipe) : ComboStats :=
  { ingredient_count := comboIngredientCount parse combo,
    avg_preference_score := pyRound (comboAvgPref scores num_recipes combo) 2,
    combined_score := pyRound (comboCombined parse scores num_recipes budget combo) 2,
    individual_scores := individualScores scores combo }

/-- The search loop of lines 193-216: track the best combination and score,
replacing only on strict improvement; the initial score is `float(-inf)`,
modelled as `⊥ : WithBot ℚ`. -/
def searchLoop (f : List Recipe → ℚ) (g : List Recipe → ComboStats) :
    List (List Recipe) → Option (List Recipe × ComboStats) × WithBot ℚ →
    Option (List Recipe × ComboStats) × WithBot ℚ
  | [], st => st
  | combo :: more, (best, best_score) =>
    if best_score < ((f combo : ℚ) : WithBot ℚ) then
      searchLoop f g more (some (combo, g combo), ((f combo : ℚ) : WithBot ℚ))
    else searchLoop f g more (best, best_score)

/-- Stable insertion for descending sort by score: a later arrival goes
after all earlier entries with a score `≥` its own, matching Python's stable
`sorted(..., reverse=True)` (lines 184-188 and 220-224). -/
def insertDesc (key : Recipe → ℚ) (r : Recipe) : List Recipe → List Recipe
  | [] => [r]
  | x :: xs => if key x < key r then r :: x :: xs else x :: insertDesc key r xs

/-- Stable descending sort by individual score. -/
def sortByScoreDesc (key : Recipe → ℚ) (pool : List Recipe) : List Recipe :=
  pool.foldl (fun acc r => insertDesc key r acc) []

/-- Assemble the final stats record (lines 237-249). -/
def finalStats (parse : String → Option (List IngEntry)) (budget : Int)
    (combo : List Recipe) (cstats : ComboStats) : PlanStats :=
  let savings_info := calculate_ingredient_savings parse combo
  { ingredient_count := cstats.ingredient_count,
    avg_preference_score := cstats.avg_preference_score,
    combined_score := cstats.combined_score,
    individual_scores := cstats.individual_scores,
    savings := savings_info,
    unique_ingredients := (extract_unique_ingredients parse combo).sort (· ≤ ·),
    detailed_ingredients := extract_ingredients_with_details parse combo,
    max_ingredients_budget := budget,
    within_budget := (savings_info.total_ingredients : Int) ≤ budget }

/-- Embedding of `get_weekly_recommendations` (lines 107-256), with the
database plumbing stripped to the spec's `plan` contract: the pre-filtered
pool, the user's preference rows, the target count and the ingredient
budget.  Enumeration switches to a greedy top-50 restriction above the
10000-combination ceiling; the loop keeps the first-seen best combination;
an empty combination list falls back to the top `num_recipes` recipes by
individual score. -/
def get_weekly_recommendations (parse : String → Option (List IngEntry))
    (pool : List Recipe) (prefs : List UserPreference) (num_recipes : Nat)
    (budget : Int) : Except PlanError (List Recipe × PlanStats) :=
  if pool.length < num_recipes then
    .error (.insufficientPool num_recipes pool.length)
  else
    let recipe_scores := buildScores prefs pool
    let max_combinations := 10000
    let total_combinations := (combinationsList num_recipes (List.range pool.length)).length
    let candidate_recipes :=
      if total_combinations > max_combinations then
        (sortByScoreDesc (fun r => recipe_scores r.id) pool).take (min 50 pool.length)
      else pool
    let result := searchLoop
      (comboCombined parse recipe_scores num_recipes budget)
      (mkComboStats parse recipe_scores num_recipes budget)
      (combinationsList num_recipes candidate_recipes) (none, ⊥)
    match result.1 with
    | some (best_combination, best_stats) =>
      .ok (best_combination, finalStats parse budget best_combination best_stats)
    | none =>
      let sorted_recipes := sortByScoreDesc (fun r => recipe_scores r.id) pool
      let best_combination := sorted_recipes.take num_recipes
      let avg := comboAvgPref recipe_scores num_recipes best_combination
      let best_stats : ComboStats :=
        { ingredient_count := comboIngredientCount parse best_combination,
          avg_preference_score := pyRound avg 2,
          combined_score := pyRound avg 2,
          individual_scores := individualScores recipe_scores best_combination }
      .ok (best_combination, finalStats parse budget best_combination best_stats)

/-- Instrumented variant of `get_weekly_recommendations` that additionally
reports how many recipes were individually scored and how many combinations
the search loop examined, following the source's control flow. -/
def get_weekly_recommendations_counted (parse : String → Option (List IngEntry))
    (pool : List Recipe) (prefs : List UserPreference) (num_recipes : Nat)
    (budget : Int) : Except PlanError (List Recipe × PlanStats) × Nat × Nat :=
  if pool.length < num_recipes then
    (.error (.insufficientPool num_recipes pool.length), 0, 0)
  else
    let recipe_scores := buildScores prefs pool
    let scored_count := pool.length
    let max_combinations := 10000
    let total_combinations := (combinationsList num_recipes (List.range pool.length)).length
    let candidate_recipes :=
      if total_combinations > max_combinations then
        (sortByScoreDesc (fun r => recipe_scores r.id) pool).take (min 50 pool.length)
      else pool
    let combos := combinationsList num_recipes candidate_recipes
    let result := searchLoop
      (comboCombined parse recipe_scores num_recipes budget)
      (mkComboStats parse recipe_scores num_recipes budget)
      combos (none, ⊥)
    match result.1 with
    | some (best_combination, best_stats) =>
      (.ok (best_combination, finalStats parse budget best_combination best_stats),
        scored_count, combos.length)
    | none =>
      let sorted_recipes := sortByScoreDesc (fun r => recipe_scores r.id) pool
      let best_combination := sorted_recipes.take num_recipes
      let avg := comboAvgPref recipe_scores num_recipes best_combination
      let best_stats : ComboStats :=
        { ingredient_count := comboIngredientCount parse best_combination,
          avg_preference_score := pyRound avg 2,
          combined_score := pyRound avg 2,
          individual_scores := individualScores recipe_scores best_combination }
      (.ok (best_combination, finalStats parse budget best_combination best_stats),
        scored_count, combos.length)

/-! ### Claim theorems -/

/-- C1: evaluation of the ingredient normalizer at the spec's five example
inputs.  The code contradicts its own docstring (and the spec) on two of
them: "2 cups diced red onions" normalizes to "red onion", not "onion" (no
pattern removes the colour adjective), and "1/2 cup fresh basil leaves"
normalizes to "basil leave", not "basil" (no pattern removes "leaves"; only
its final "s" is dropped).  The remaining examples behave as documented, and
"Salt and pepper to taste" normalizes to a staple-flagged result. -/
theorem C1_normalizer_examples :
    normalize_ingredient_name "2 cups diced red onions" = "red onion" ∧
    normalize_ingredient_name "2 cups diced red onions" ≠ "onion" ∧
    normalize_ingredient_name "1 (15oz) can black beans, drained" = "black bean" ∧
    normalize_ingredient_name "3 cloves garlic, minced" = "garlic" ∧
    normalize_ingredient_name "1/2 cup fresh basil leaves" = "basil leave" ∧
    normalize_ingredient_name "1/2 cup fresh basil leaves" ≠ "basil" ∧
    is_pantry_staple (normalize_ingredient_name "Salt and pepper to taste") = true := by
  decide

/-- C4: the preference score is the sum of the four independently-evaluated
attribute lookups — cuisine, dish type, difficulty, and the cooking-time
bucket — where an attribute whose value is missing (null, empty string, or
the falsy 0 for `ready_in_minutes`) is skipped and contributes 0; the bucket
boundaries are `<30` quick, `30..60` inclusive medium, `>60` long; the empty
preference table scores 0 for every recipe. -/
theorem C4_score_is_sum_of_lookups :
    (∀ (r : Recipe) (prefs : List UserPreference),
      score_recipe_for_user r prefs =
        (if strTruthy r.cuisine_type then
            buildPrefLookup prefs ("cuisine_type", r.cuisine_type.getD "") else 0) +
        (if strTruthy r.dish_type then
            buildPrefLookup prefs ("dish_type", r.dish_type.getD "") else 0) +
        (if strTruthy r.difficulty then
            buildPrefLookup prefs ("difficulty", r.difficulty.getD "") else 0) +
        (if intTruthy r.ready_in_minutes then
            buildPrefLookup prefs ("cooking_time", timeBucket (r.ready_in_minutes.getD 0))
          else 0)) ∧
    (∀ t : Int, (t < 30 → timeBucket t = "quick (<30min)") ∧
      (30 ≤ t → t ≤ 60 → timeBucket t = "medium (30-60min)") ∧
      (60 < t → timeBucket t = "long (>60min)")) ∧
    (∀ r : Recipe, score_recipe_for_user r [] = 0) := by
  refine ⟨?_, ?_, ?_⟩
  · intro r prefs
    unfold score_recipe_for_user
    cases strTruthy r.cuisine_type <;> cases strTruthy r.dish_type <;>
      cases strTruthy r.difficulty <;> cases intTruthy r.ready_in_minutes <;>
      simp
  · intro t
    refine ⟨fun h => ?_, fun h1 h2 => ?_, fun h => ?_⟩
    · simp [timeBucket, h]
    · have hn : ¬ t < 30 := by omega
      simp [timeBucket, hn, h2]
    · have hn : ¬ t < 30 := by omega
      have hn2 : ¬ t ≤ 60 := by omega
      simp [timeBucket, hn, hn2]
  · intro r
    have hl : buildPrefLookup [] = fun _ => 0 := rfl
    unfold score_recipe_for_user
    rw [hl]
    cases strTruthy r.cuisine_type <;> cases strTruthy r.dish_type <;>
      cases strTruthy r.difficulty <;> cases intTruthy r.ready_in_minutes <;> simp

/-- C4 witness: the sum-of-lookups shape at a concrete recipe and table,
and the quick bucket at 10 minutes. -/
theorem C4_score_is_sum_of_lookups_witness :
    (10 : Int) < 30 ∧ timeBucket 10 = "quick (<30min)" :=
  ⟨by decide, (C4_score_is_sum_of_lookups.2.1 10).1 (by decide)⟩

/-- A minimal recipe used by concrete witnesses. -/
def sampleRecipe (n : Int) : Recipe :=
  { id := n, title := "sample", ingredients := .parsed [],
    cuisine_type := none, dish_type := none, difficulty := none,
    ready_in_minutes := none }

/-- A parse function (for the abstracted `json.loads`) that always fails. -/
def noParse : String → Option (List IngEntry) := fun _ => none

/-- C3: with fewer available recipes than requested the planner fails with
the insufficient-pool error before any computation: no plan is produced, and
the instrumented variant confirms that zero recipes were scored and zero
combinations were evaluated. -/
theorem C3_insufficient_pool (parse : String → Option (List IngEntry))
    (pool : List Recipe) (prefs : List UserPreference) (num_recipes : Nat)
    (budget : Int) (h : pool.length < num_recipes) :
    get_weekly_recommendations parse pool prefs num_recipes budget =
      .error (.insufficientPool num_recipes pool.length) ∧
    get_weekly_recommendations_counted parse pool prefs num_recipes budget =
      (.error (.insufficientPool num_recipes pool.length), 0, 0) ∧
    ∀ result, get_weekly_recommendations parse pool prefs num_recipes budget ≠ .ok result := by
  refine ⟨?_, ?_, ?_⟩
  · simp [get_weekly_recommendations, h]
  · simp [get_weekly_recommendations_counted, h]
  · intro result
    simp [get_weekly_recommendations, h]

/-- C3 witness: a pool of two recipes with `k = 3` hits the error path. -/
theorem C3_insufficient_pool_witness :
    ([sampleRecipe 1, sampleRecipe 2] : List Recipe).length < 3 ∧
    get_weekly_recommendations noParse [sampleRecipe 1, sampleRecipe 2] [] 3 20 =
      .error (.insufficientPool 3 ([sampleRecipe 1, sampleRecipe 2] : List Recipe).length) :=
  ⟨by decide,
    (C3_insufficient_pool noParse [sampleRecipe 1, sampleRecipe 2] [] 3 20 (by decide)).1⟩

/-- Does a row match the `(user, type, value)` key of the updater query? -/
def prefKeyMatches (uid : Int) (ptype pvalue : String) (p : UserPreference) : Prop :=
  p.user_id = uid ∧ p.preference_type = ptype ∧ p.preference_value = pvalue

theorem prefKeyMatches_iff (uid : Int) (ptype pvalue : String) (p : UserPreference) :
    (p.user_id == uid && p.preference_type == ptype && p.preference_value == pvalue) = true ↔
      prefKeyMatches uid ptype pvalue p := by
  simp [prefKeyMatches, and_assoc]

theorem applyDeltaFirst_spec (uid : Int) (ptype pvalue : String) (delta : ℚ) (now : Nat)
    (table : List UserPreference) :
    (applyDeltaFirst uid ptype pvalue delta now table = none ∧
      ∀ q ∈ table, ¬ prefKeyMatches uid ptype pvalue q) ∨
    (∃ t1 p t2, table = t1 ++ p :: t2 ∧
      (∀ q ∈ t1, ¬ prefKeyMatches uid ptype pvalue q) ∧
      prefKeyMatches uid ptype pvalue p ∧
      applyDeltaFirst uid ptype pvalue delta now table =
        some (t1 ++ { p with score := p.score + delta, last_updated := now } :: t2)) := by
  induction table with
  | nil => left; exact ⟨rfl, by simp⟩
  | cons p rest ih =>
    by_cases hb : (p.user_id == uid && p.preference_type == ptype &&
        p.preference_value == pvalue) = true
    · right
      exact ⟨[], p, rest, by simp, by simp, (prefKeyMatches_iff uid ptype pvalue p).mp hb,
        by simp [applyDeltaFirst, hb]⟩
    · have hnp : ¬ prefKeyMatches uid ptype pvalue p := fun hc =>
        hb ((prefKeyMatches_iff uid ptype pvalue p).mpr hc)
      have hbf : (p.user_id == uid && p.preference_type == ptype &&
          p.preference_value == pvalue) = false := by
        cases hx : (p.user_id == uid && p.preference_type == ptype &&
            p.preference_value == pvalue)
        · rfl
        · exact absurd hx hb
      rcases ih with ⟨hnone, hall⟩ | ⟨t1, q, t2, heq, ht1, hq, hsome⟩
      · left
        refine ⟨by simp [applyDeltaFirst, hbf, hnone], ?_⟩
        intro x hx
        rcases List.mem_cons.mp hx with hx | hx
        · exact hx ▸ hnp
        · exact hall x hx
      · right
        refine ⟨p :: t1, q, t2, by rw [heq]; rfl, ?_, hq, ?_⟩
        · intro x hx
          rcases List.mem_cons.mp hx with hx | hx
          · exact hx ▸ hnp
          · exact ht1 x hx
        · simp [applyDeltaFirst, hbf, hsome]

/-- C9: a missing or empty attribute value makes the preference update a
silent no-op that leaves the table unchanged; otherwise the first row
matching the key gets the delta added to its existing score (with a fresh
timestamp) while every other row keeps its position and content, and when no
row matches a new row with score = delta is appended. -/
theorem C9_update_user_preference (user_id : Int) (preference_type : String)
    (preference_value : Option String) (score_delta : ℚ) (now : Nat)
    (table : List UserPreference) :
    (strTruthy preference_value = false →
      update_user_preference user_id preference_type preference_value score_delta now table
        = table) ∧
    (strTruthy preference_value = true →
      (∃ t1 p t2, table = t1 ++ p :: t2 ∧
        (∀ q ∈ t1, ¬ prefKeyMatches user_id preference_type (preference_value.getD "") q) ∧
        prefKeyMatches user_id preference_type (preference_value.getD "") p ∧
        update_user_preference user_id preference_type preference_value score_delta now table
          = t1 ++ { p with score := p.score + score_delta, last_updated := now } :: t2) ∨
      ((∀ q ∈ table, ¬ prefKeyMatches user_id preference_type (preference_value.getD "") q) ∧
        update_user_preference user_id preference_type preference_value score_delta now table
          = table ++ [{ user_id := user_id, preference_type := preference_type,
                        preference_value := preference_value.getD "",
                        score := score_delta, last_updated := now }])) := by
  constructor
  · intro h; simp [update_user_preference, h]
  · intro h
    rcases applyDeltaFirst_spec user_id preference_type (preference_value.getD "")
        score_delta now table with ⟨hnone, hall⟩ | ⟨t1, p, t2, heq, ht1, hp, hsome⟩
    · right; exact ⟨hall, by simp [update_user_preference, h, hnone]⟩
    · left; exact ⟨t1, p, t2, heq, ht1, hp, by simp [update_user_preference, h, hsome]⟩

/-- C9 witness: a null value is a no-op on the empty table, and a fresh
value "Italian" appends a row with score equal to the delta. -/
theorem C9_update_user_preference_witness :
    (update_user_preference 7 "cuisine_type" none 1 5 [] = []) ∧
    strTruthy (some "Italian") = true ∧
    ((∃ t1 p t2, ([] : List UserPreference) = t1 ++ p :: t2 ∧
        (∀ q ∈ t1, ¬ prefKeyMatches 7 "cuisine_type" ((some "Italian").getD "") q) ∧
        prefKeyMatches 7 "cuisine_type" ((some "Italian").getD "") p ∧
        update_user_preference 7 "cuisine_type" (some "Italian") 1 5 [] =
          t1 ++ { p with score := p.score + 1, last_updated := 5 } :: t2) ∨
      ((∀ q ∈ ([] : List UserPreference),
          ¬ prefKeyMatches 7 "cuisine_type" ((some "Italian").getD "") q) ∧
        update_user_preference 7 "cuisine_type" (some "Italian") 1 5 [] =
          [] ++ [{ user_id := 7, preference_type := "cuisine_type",
                   preference_value := (some "Italian").getD "",
                   score := 1, last_updated := 5 }])) :=
  ⟨(C9_update_user_preference 7 "cuisine_type" none 1 5 []).1 rfl, rfl,
   (C9_update_user_preference 7 "cuisine_type" (some "Italian") 1 5 []).2 rfl⟩

theorem filter_update_user_preference (uid : Int) (ptype : String) (v : Option String)
    (delta : ℚ) (now : Nat) (table : List UserPreference) (tgt : String)
    (h : ptype ≠ tgt) :
    (update_user_preference uid ptype v delta now table).filter
        (fun p => p.preference_type == tgt) =
      table.filter (fun p => p.preference_type == tgt) := by
  cases hv : strTruthy v with
  | false => simp [update_user_preference, hv]
  | true =>
    rcases applyDeltaFirst_spec uid ptype (v.getD "") delta now table with
      ⟨hnone, _⟩ | ⟨t1, p, t2, heq, _, hp, hsome⟩
    · have : update_user_preference uid ptype v delta now table =
          table ++ [{ user_id := uid, preference_type := ptype,
                      preference_value := v.getD "", score := delta,
                      last_updated := now }] := by
        simp [update_user_preference, hv, hnone]
      rw [this, List.filter_append]
      have : (({ user_id := uid, preference_type := ptype,
                 preference_value := v.getD "", score := delta,
                 last_updated := now } : UserPreference).preference_type == tgt) = false := by
        simpa using h
      simp [this]
    · have hres : update_user_preference uid ptype v delta now table =
          t1 ++ { p with score := p.score + delta, last_updated := now } :: t2 := by
        simp [update_user_preference, hv, hsome]
      have hpt : p.preference_type = ptype := hp.2.1
      have hfp : (p.preference_type == tgt) = false := by
        rw [hpt]; simpa using h
      rw [hres, heq, List.filter_append, List.filter_append]
      simp [hfp]

/-- C10: a recipe whose `ready_in_minutes` is 0 is scored exactly as if the
field were missing — the truthiness guard skips the cooking-time lookup even
though 0 would fall in the quick bucket — and rating such a recipe performs
the same preference updates as rating one with the field missing, touching
no cooking-time row of the table. -/
theorem C10_zero_ready_minutes (r : Recipe) (prefs : List UserPreference)
    (user_id rating : Int) (now : Nat) (table : List UserPreference) :
    score_recipe_for_user { r with ready_in_minutes := some 0 } prefs =
      score_recipe_for_user { r with ready_in_minutes := none } prefs ∧
    update_preferences_from_rating (some { r with ready_in_minutes := some 0 })
        user_id rating now table =
      update_preferences_from_rating (some { r with ready_in_minutes := none })
        user_id rating now table ∧
    (update_preferences_from_rating (some { r with ready_in_minutes := some 0 })
        user_id rating now table).filter (fun p => p.preference_type == "cooking_time") =
      table.filter (fun p => p.preference_type == "cooking_time") := by
  refine ⟨?_, ?_, ?_⟩
  · simp [score_recipe_for_user, intTruthy]
  · simp [update_preferences_from_rating, intTruthy]
  · simp only [update_preferences_from_rating, intTruthy]
    have h1 : ("cuisine_type" : String) ≠ "cooking_time" := by decide
    have h2 : ("dish_type" : String) ≠ "cooking_time" := by decide
    have h3 : ("difficulty" : String) ≠ "cooking_time" := by decide
    by_cases g1 : strTruthy r.cuisine_type <;> by_cases g2 : strTruthy r.dish_type <;>
      by_cases g3 : strTruthy r.difficulty <;>
      simp [g1, g2, g3, filter_update_user_preference _ _ _ _ _ _ _ h1,
        filter_update_user_preference _ _ _ _ _ _ _ h2,
        filter_update_user_preference _ _ _ _ _ _ _ h3]

theorem extract_foldl_union (parse : String → Option (List IngEntry))
    (init : Finset String) (rs : List Recipe) :
    rs.foldl (fun acc r => acc ∪ (keptNames parse r).toFinset) init =
      init ∪ rs.foldl (fun acc r => acc ∪ (keptNames parse r).toFinset) ∅ := by
  induction rs generalizing init with
  | nil => simp
  | cons r rs ih =>
    simp only [List.foldl_cons]
    rw [ih (init ∪ (keptNames parse r).toFinset), ih (∅ ∪ (keptNames parse r).toFinset)]
    simp [Finset.union_assoc]

theorem extract_unique_cons (parse : String → Option (List IngEntry))
    (r : Recipe) (rs : List Recipe) :
    extract_unique_ingredients parse (r :: rs) =
      (keptNames parse r).toFinset ∪ extract_unique_ingredients parse rs := by
  unfold extract_unique_ingredients
  simp only [List.foldl_cons]
  rw [extract_foldl_union]
  simp

theorem extract_unique_append (parse : String → Option (List IngEntry))
    (l1 l2 : List Recipe) :
    extract_unique_ingredients parse (l1 ++ l2) =
      extract_unique_ingredients parse l1 ∪ extract_unique_ingredients parse l2 := by
  induction l1 with
  | nil => simp [extract_unique_ingredients]
  | cons r l1 ih =>
    rw [List.cons_append, extract_unique_cons, extract_unique_cons, ih,
      Finset.union_assoc]

theorem extract_unique_singleton (parse : String → Option (List IngEntry)) (r : Recipe) :
    extract_unique_ingredients parse [r] = (keptNames parse r).toFinset := by
  rw [extract_unique_cons]
  simp [extract_unique_ingredients]

theorem mem_extract_unique (parse : String → Option (List IngEntry))
    (x : String) (rs : List Recipe) :
    x ∈ extract_unique_ingredients parse rs ↔ ∃ r ∈ rs, x ∈ keptNames parse r := by
  induction rs with
  | nil => simp [extract_unique_ingredients]
  | cons r rs ih =>
    rw [extract_unique_cons]
    simp [ih]

theorem card_extract_le_sum (parse : String → Option (List IngEntry))
    (rs : List Recipe) :
    (extract_unique_ingredients parse rs).card ≤
      (rs.map (fun r => count_ingredients_for_recipes parse [r])).sum := by
  induction rs with
  | nil => simp [extract_unique_ingredients]
  | cons r rs ih =>
    rw [extract_unique_cons]
    calc ((keptNames parse r).toFinset ∪ extract_unique_ingredients parse rs).card
        ≤ (keptNames parse r).toFinset.card + (extract_unique_ingredients parse rs).card :=
          Finset.card_union_le _ _
      _ ≤ (keptNames parse r).toFinset.card +
            (rs.map (fun r => count_ingredients_for_recipes parse [r])).sum := by
          omega
      _ = ((r :: rs).map (fun r => count_ingredients_for_recipes parse [r])).sum := by
          simp [count_ingredients_for_recipes, extract_unique_singleton]

theorem pyRound_zero (n : Nat) : pyRound 0 n = 0 := by
  norm_num [pyRound, pyRoundHalfEven]

/-- C6: the savings record reports the union size as total, the sum of the
per-recipe unique counts as if-separate, their difference as savings, and
the rounded percentage (0 when if-separate is 0); the union is never larger
than the sum of its parts, so savings is non-negative. -/
theorem C6_savings_record (parse : String → Option (List IngEntry))
    (recipes : List Recipe) :
    (calculate_ingredient_savings parse recipes).total_ingredients =
      (extract_unique_ingredients parse recipes).card ∧
    (calculate_ingredient_savings parse recipes).ingredients_if_separate =
      (recipes.map (fun r => (extract_unique_ingredients parse [r]).card)).sum ∧
    (calculate_ingredient_savings parse recipes).savings =
      ((calculate_ingredient_savings parse recipes).ingredients_if_separate : Int) -
        ((calculate_ingredient_savings parse recipes).total_ingredients : Int) ∧
    (calculate_ingredient_savings parse recipes).overlap_percentage =
      (if 0 < (calculate_ingredient_savings parse recipes).ingredients_if_separate then
        pyRound (((calculate_ingredient_savings parse recipes).savings : ℚ) /
          ((calculate_ingredient_savings parse recipes).ingredients_if_separate : ℚ) * 100) 1
      else 0) ∧
    (calculate_ingredient_savings parse recipes).total_ingredients ≤
      (calculate_ingredient_savings parse recipes).ingredients_if_separate ∧
    0 ≤ (calculate_ingredient_savings parse recipes).savings := by
  have hle : (extract_unique_ingredients parse recipes).card ≤
      (recipes.map (fun r => count_ingredients_for_recipes parse [r])).sum :=
    card_extract_le_sum parse recipes
  refine ⟨rfl, by simp [calculate_ingredient_savings, count_ingredients_for_recipes], ?_, ?_, ?_, ?_⟩
  · simp [calculate_ingredient_savings]
  · simp only [calculate_ingredient_savings, count_ingredients_for_recipes]
    split
    · rfl
    · exact pyRound_zero 1
  · simpa [calculate_ingredient_savings, count_ingredients_for_recipes] using hle
  · simp only [calculate_ingredient_savings, count_ingredients_for_recipes]
    have hle2 : (extract_unique_ingredients parse recipes).card ≤
        (recipes.map (fun r => (extract_unique_ingredients parse [r]).card)).sum := by
      simpa [count_ingredients_for_recipes] using hle
    omega

/-- C7: extraction is monotone — every recipe of `A` also occurring in `B`
makes the unique-ingredient set of `A` a subset of that of `B`, so its size
can only grow. -/
theorem C7_union_monotonicity (parse : String → Option (List IngEntry))
    (A B : List Recipe) (hAB : A ⊆ B) :
    (extract_unique_ingredients parse A).card ≤
      (extract_unique_ingredients parse B).card := by
  apply Finset.card_le_card
  intro x hx
  rw [mem_extract_unique] at hx ⊢
  obtain ⟨r, hr, hxr⟩ := hx
  exact ⟨r, hAB hr, hxr⟩

/-- C7 witness: the empty collection against a one-recipe collection. -/
theorem C7_union_monotonicity_witness :
    ([] : List Recipe) ⊆ [sampleRecipe 1] ∧
    (extract_unique_ingredients noParse []).card ≤
      (extract_unique_ingredients noParse [sampleRecipe 1]).card :=
  ⟨List.nil_subset _,
    C7_union_monotonicity noParse [] [sampleRecipe 1] (List.nil_subset _)⟩

/-- C8: a recipe whose serialized ingredients fail to parse contributes
nothing and breaks nothing: its kept-name list is empty, it adds no element
to the union of any containing list, and it counts 0 toward the
ingredient budget. -/
theorem C8_parse_failure_recovered (parse : String → Option (List IngEntry))
    (raw : String) (r : Recipe) (rs1 rs2 : List Recipe)
    (hser : r.ingredients = .serialized raw) (hfail : parse raw = none) :
    keptNames parse r = [] ∧
    extract_unique_ingredients parse (rs1 ++ r :: rs2) =
      extract_unique_ingredients parse (rs1 ++ rs2) ∧
    count_ingredients_for_recipes parse [r] = 0 ∧
    count_ingredients_for_recipes parse (rs1 ++ r :: rs2) =
      count_ingredients_for_recipes parse (rs1 ++ rs2) := by
  have hk : keptNames parse r = [] := by
    simp [keptNames, entriesOf, hser, hfail]
  have hmid : extract_unique_ingredients parse (rs1 ++ r :: rs2) =
      extract_unique_ingredients parse (rs1 ++ rs2) := by
    rw [extract_unique_append, extract_unique_append, extract_unique_cons, hk]
    simp
  exact ⟨hk, hmid,
    by simp [count_ingredients_for_recipes, extract_unique_singleton, hk],
    by simp [count_ingredients_for_recipes, hmid]⟩

/-- A recipe whose ingredients field is serialized and unparsable. -/
def badRecipe : Recipe :=
  { id := 9, title := "bad", ingredients := .serialized "broken",
    cuisine_type := none, dish_type := none, difficulty := none,
    ready_in_minutes := none }

/-- C8 witness: an unparsable serialized recipe in a one-recipe context. -/
theorem C8_parse_failure_recovered_witness :
    badRecipe.ingredients = .serialized "broken" ∧ noParse "broken" = none ∧
    (keptNames noParse badRecipe = [] ∧
      extract_unique_ingredients noParse ([] ++ badRecipe :: [sampleRecipe 1]) =
        extract_unique_ingredients noParse ([] ++ [sampleRecipe 1]) ∧
      count_ingredients_for_recipes noParse [badRecipe] = 0 ∧
      count_ingredients_for_recipes noParse ([] ++ badRecipe :: [sampleRecipe 1]) =
        count_ingredients_for_recipes noParse ([] ++ [sampleRecipe 1])) :=
  ⟨rfl, rfl,
    C8_parse_failure_recovered noParse "broken" badRecipe [] [sampleRecipe 1] rfl rfl⟩

/-- The claim's characterization of staple matching on a normalized
(lowercase, stripped) input: exact membership in the curated set, multi-word
staples by plain substring containment, single-word staples at word
boundaries. -/
def stapleMatchSpec (l : List Char) : Prop :=
  (∃ st ∈ PANTRY_STAPLES, st.data = l) ∨
  (∃ st ∈ PANTRY_STAPLES, st.data.contains ' ' = true ∧ containsSeq st.data l = true) ∨
  (∃ st ∈ PANTRY_STAPLES, st.data.contains ' ' = false ∧
    wordBoundedOccur st.data none l = true)

/-- C5: on normalized input the staple test returns true exactly when the
input is a staple verbatim, contains a multi-word staple as a plain
substring, or contains a single-word staple at word boundaries; "salt" and
"olive oil" are staples, "red pepper flakes" is not, and "boiled" is not —
the staple "oil" inside a longer word never matches. -/
theorem C5_staple_characterization :
    (∀ s : String, pyStrip (pyLower s.data) = s.data →
      (is_pantry_staple s = true ↔ stapleMatchSpec s.data)) ∧
    is_pantry_staple "salt" = true ∧
    is_pantry_staple "red pepper flakes" = false ∧
    is_pantry_staple "olive oil" = true ∧
    is_pantry_staple "boiled" = false := by
  refine ⟨?_, by decide, by decide, by decide, by decide⟩
  intro s hs
  simp only [is_pantry_staple, hs]
  by_cases hd : PANTRY_STAPLES.any (fun st => st.data == s.data) = true
  · simp only [hd, if_true]
    constructor
    · intro _
      obtain ⟨st, hmem, hbeq⟩ := List.any_eq_true.mp hd
      exact Or.inl ⟨st, hmem, by simpa using hbeq⟩
    · intro _; trivial
  · have hdf : PANTRY_STAPLES.any (fun st => st.data == s.data) = false := by
      cases hx : PANTRY_STAPLES.any (fun st => st.data == s.data)
      · rfl
      · exact absurd hx hd
    simp only [hdf, Bool.false_eq_true, if_false]
    constructor
    · intro h
      obtain ⟨staple, hmem, hcond⟩ := List.any_eq_true.mp h
      by_cases hsp : staple.data.contains ' ' = true
      · simp only [hsp, if_true] at hcond
        exact Or.inr (Or.inl ⟨staple, hmem, hsp, hcond⟩)
      · have hspf : staple.data.contains ' ' = false := by
          cases hx : staple.data.contains ' '
          · rfl
          · exact absurd hx hsp
        simp only [hspf, Bool.false_eq_true, if_false] at hcond
        exact Or.inr (Or.inr ⟨staple, hmem, hspf, hcond⟩)
    · intro h
      rcases h with ⟨st, hm, he⟩ | ⟨st, hm, hsp, hc⟩ | ⟨st, hm, hsp, hw⟩
      · exfalso
        have hany : PANTRY_STAPLES.any (fun stp => stp.data == s.data) = true :=
          List.any_eq_true.mpr ⟨st, hm, by simpa using he⟩
        rw [hany] at hdf
        cases hdf
      · refine List.any_eq_true.mpr ⟨st, hm, ?_⟩
        simp only [hsp, if_true]
        exact hc
      · refine List.any_eq_true.mpr ⟨st, hm, ?_⟩
        simp only [hsp, Bool.false_eq_true, if_false]
        exact hw

/-- C5 witness: the characterization applied to the normalized input
"salt". -/
theorem C5_staple_characterization_witness :
    pyStrip (pyLower "salt".data) = "salt".data ∧
    (is_pantry_staple "salt" = true ↔ stapleMatchSpec "salt".data) :=
  ⟨by decide, C5_staple_characterization.1 "salt" (by decide)⟩

theorem length_combinationsList (k : Nat) (l : List α) :
    (combinationsList k l).length = l.length.choose k := by
  induction l generalizing k with
  | nil => cases k <;> simp [combinationsList]
  | cons x xs ih =>
    cases k with
    | zero => simp [combinationsList]
    | succ k =>
      simp [combinationsList, ih, Nat.choose_succ_succ]

theorem mem_combinationsList {k : Nat} {l c : List α} (h : c ∈ combinationsList k l) :
    c.Sublist l ∧ c.length = k := by
  induction l generalizing k c with
  | nil =>
    cases k with
    | zero => simp only [combinationsList, List.mem_singleton] at h; subst h; simp
    | succ k => simp [combinationsList] at h
  | cons x xs ih =>
    cases k with
    | zero =>
      simp only [combinationsList, List.mem_singleton] at h; subst h
      exact ⟨List.nil_sublist _, rfl⟩
    | succ k =>
      simp only [combinationsList, List.mem_append, List.mem_map] at h
      rcases h with ⟨c', hc', rfl⟩ | h
      · obtain ⟨hs, hl⟩ := ih hc'
        exact ⟨List.Sublist.cons₂ x hs, by simp [hl]⟩
      · obtain ⟨hs, hl⟩ := ih h
        exact ⟨hs.cons x, hl⟩

theorem buildScores_foldl_not_mem (prefs : List UserPreference) (pool : List Recipe)
    (m : Int → ℚ) (i : Int) (h : i ∉ pool.map Recipe.id) :
    pool.foldl
      (fun m r j => if j = r.id then score_recipe_for_user r prefs else m j) m i = m i := by
  induction pool generalizing m with
  | nil => rfl
  | cons p ps ih =>
    simp only [List.map_cons, List.mem_cons] at h
    push_neg at h
    simp only [List.foldl_cons]
    rw [ih _ h.2]
    simp [h.1]

theorem buildScores_foldl_eq (prefs : List UserPreference) {r : Recipe} :
    ∀ pool : List Recipe, (pool.map Recipe.id).Nodup → r ∈ pool → ∀ m : Int → ℚ,
      pool.foldl
        (fun m r2 j => if j = r2.id then score_recipe_for_user r2 prefs else m j) m r.id
      = score_recipe_for_user r prefs := by
  intro pool
  induction pool with
  | nil => intro _ hr; cases hr
  | cons p ps ih =>
    intro hids hr m
    simp only [List.map_cons, List.nodup_cons] at hids
    simp only [List.foldl_cons]
    rcases List.mem_cons.mp hr with hre | hmem
    · subst hre
      rw [buildScores_foldl_not_mem prefs ps _ _ hids.1]
      simp
    · exact ih hids.2 hmem _

theorem buildScores_eq (prefs : List UserPreference) (pool : List Recipe)
    (hids : (pool.map Recipe.id).Nodup) {r : Recipe} (hr : r ∈ pool) :
    buildScores prefs pool r.id = score_recipe_for_user r prefs :=
  buildScores_foldl_eq prefs pool hids hr _

/-- The first-seen maximum reached by folding the strict-improvement rule
over the remaining combinations, starting from a current best `b`. -/
def bestFrom (f : List Recipe → ℚ) (b : List Recipe) : List (List Recipe) → List Recipe
  | [] => b
  | c :: cs => bestFrom f (if f b < f c then c else b) cs

theorem searchLoop_from_some (f : List Recipe → ℚ) (g : List Recipe → ComboStats)
    (l : List (List Recipe)) :
    ∀ b, searchLoop f g l (some (b, g b), ((f b : ℚ) : WithBot ℚ)) =
      (some (bestFrom f b l, g (bestFrom f b l)), ((f (bestFrom f b l) : ℚ) : WithBot ℚ)) := by
  induction l with
  | nil => intro b; rfl
  | cons c cs ih =>
    intro b
    simp only [searchLoop, bestFrom]
    by_cases h : f b < f c
    · rw [if_pos (WithBot.coe_lt_coe.mpr h), if_pos h]
      exact ih c
    · rw [if_neg (fun hc => h (WithBot.coe_lt_coe.mp hc)), if_neg h]
      exact ih b

theorem searchLoop_start (f : List Recipe → ℚ) (g : List Recipe → ComboStats)
    (c : List Recipe) (cs : List (List Recipe)) :
    searchLoop f g (c :: cs) (none, ⊥) =
      (some (bestFrom f c cs, g (bestFrom f c cs)),
        ((f (bestFrom f c cs) : ℚ) : WithBot ℚ)) := by
  simp only [searchLoop]
  rw [if_pos (WithBot.bot_lt_coe _)]
  exact searchLoop_from_some f g cs c

theorem bestFrom_le (f : List Recipe → ℚ) :
    ∀ (l : List (List Recipe)) (b), f b ≤ f (bestFrom f b l) ∧
      ∀ a ∈ l, f a ≤ f (bestFrom f b l) := by
  intro l
  induction l with
  | nil => intro b; exact ⟨le_refl _, by simp⟩
  | cons c cs ih =>
    intro b
    simp only [bestFrom]
    by_cases h : f b < f c
    · rw [if_pos h]
      obtain ⟨h1, h2⟩ := ih c
      refine ⟨le_trans (le_of_lt h) h1, ?_⟩
      intro a ha
      rcases List.mem_cons.mp ha with rfl | ha
      · exact h1
      · exact h2 a ha
    · rw [if_neg h]
      obtain ⟨h1, h2⟩ := ih b
      refine ⟨h1, ?_⟩
      intro a ha
      rcases List.mem_cons.mp ha with rfl | ha
      · exact le_trans (le_of_not_lt h) h1
      · exact h2 a ha

theorem bestFrom_decomp (f : List Recipe → ℚ) :
    ∀ (l : List (List Recipe)) (b),
      ∃ l1 l2, b :: l = l1 ++ (bestFrom f b l) :: l2 ∧
        ∀ a ∈ l1, f a < f (bestFrom f b l) := by
  intro l
  induction l with
  | nil => intro b; exact ⟨[], [], rfl, by simp⟩
  | cons c cs ih =>
    intro b
    simp only [bestFrom]
    by_cases h : f b < f c
    · rw [if_pos h]
      obtain ⟨l1, l2, heq, hlt⟩ := ih c
      refine ⟨b :: l1, l2, by rw [List.cons_append, ← heq], ?_⟩
      intro a ha
      rcases List.mem_cons.mp ha with rfl | ha
      · exact lt_of_lt_of_le h (bestFrom_le f cs c).1
      · exact hlt a ha
    · rw [if_neg h]
      obtain ⟨l1, l2, heq, hlt⟩ := ih b
      cases l1 with
      | nil =>
        simp only [List.nil_append, List.cons.injEq] at heq
        obtain ⟨hb, hcs⟩ := heq
        refine ⟨[], c :: cs, ?_, by simp⟩
        rw [List.nil_append, ← hb]
      | cons b0 t =>
        simp only [List.cons_append, List.cons.injEq] at heq
        obtain ⟨hb0, hcs⟩ := heq
        refine ⟨b :: c :: t, l2, ?_, ?_⟩
        · conv_lhs => rw [hcs]
          simp
        · intro a ha
          have hfb : f b < f (bestFrom f b cs) := by
            have := hlt b0 (List.mem_cons_self _ _)
            rw [← hb0] at this
            exact this
          rcases List.mem_cons.mp ha with rfl | ha
          · exact hfb
          · rcases List.mem_cons.mp ha with rfl | ha
            · exact lt_of_le_of_lt (le_of_not_lt h) hfb
            · exact hlt a (List.mem_cons_of_mem _ ha)

/-- The combined objective exactly as the claim words it: the average of the
k recipes' individual preference scores minus half the overage
`max 0 (unique-ingredient-count − budget)`. -/
def combinedSpec (parse : String → Option (List IngEntry))
    (prefs : List UserPreference) (k : Nat) (budget : Int)
    (combo : List Recipe) : ℚ :=
  (combo.map (fun r => score_recipe_for_user r prefs)).sum / (k : ℚ) -
    (1 / 2) * ((max 0 ((comboIngredientCount parse combo : Int) - budget) : Int) : ℚ)

theorem combinedSpec_eq (parse : String → Option (List IngEntry))
    (prefs : List UserPreference) (pool : List Recipe) (k : Nat) (budget : Int)
    (hids : (pool.map Recipe.id).Nodup) {c : List Recipe} (hc : c ⊆ pool) :
    comboCombined parse (buildScores prefs pool) k budget c =
      combinedSpec parse prefs k budget c := by
  unfold comboCombined combinedSpec comboAvgPref
  have hmap : c.map (fun r => buildScores prefs pool r.id) =
      c.map (fun r => score_recipe_for_user r prefs) := by
    apply List.map_congr_left
    intro r hr
    exact buildScores_eq prefs pool hids (hc hr)
  rw [hmap]
  have hpen : (if (comboIngredientCount parse c : Int) > budget then
        (comboIngredientCount parse c : Int) - budget else 0) =
      max 0 ((comboIngredientCount parse c : Int) - budget) := by
    by_cases h : (comboIngredientCount parse c : Int) > budget
    · rw [if_pos h, max_eq_right]; omega
    · rw [if_neg h, max_eq_left]; omega
  simp only [hpen]
  ring

theorem getWeekly_enum_eq (parse : String → Option (List IngEntry))
    (pool : List Recipe) (prefs : List UserPreference) (k : Nat) (budget : Int)
    (h1 : ¬ pool.length < k)
    (h2 : ¬ (combinationsList k (List.range pool.length)).length > 10000)
    {c0 : List Recipe} {cs : List (List Recipe)}
    (hc : combinationsList k pool = c0 :: cs) :
    get_weekly_recommendations parse pool prefs k budget =
      .ok (bestFrom (comboCombined parse (buildScores prefs pool) k budget) c0 cs,
        finalStats parse budget
          (bestFrom (comboCombined parse (buildScores prefs pool) k budget) c0 cs)
          (mkComboStats parse (buildScores prefs pool) k budget
            (bestFrom (comboCombined parse (buildScores prefs pool) k budget) c0 cs))) := by
  unfold get_weekly_recommendations
  rw [if_neg h1]
  simp only [gt_iff_lt, not_lt] at h2
  simp only [gt_iff_lt, Nat.not_lt.mpr h2, if_false, hc, searchLoop_start]

/-- C2: with a pool at least `k` large whose full enumeration stays within
the 10000-combination ceiling (and the catalog invariant of distinct recipe
ids), the planner succeeds and returns a `k`-combination of the pool whose
combined score — average individual preference minus half the budget
overage — is maximal over all enumerated `k`-combinations, and is the first
combination in enumeration order attaining that maximum (ties never displace
an earlier best). -/
theorem C2_weekly_search_optimal (parse : String → Option (List IngEntry))
    (pool : List Recipe) (prefs : List UserPreference) (k : Nat) (budget : Int)
    (hk : 0 < k) (hlen : k ≤ pool.length)
    (hcap : pool.length.choose k ≤ 10000)
    (hids : (pool.map Recipe.id).Nodup) :
    ∃ combo stats,
      get_weekly_recommendations parse pool prefs k budget = .ok (combo, stats) ∧
      combo ∈ combinationsList k pool ∧
      (∀ c ∈ combinationsList k pool,
        combinedSpec parse prefs k budget c ≤ combinedSpec parse prefs k budget combo) ∧
      ∃ l1 l2, combinationsList k pool = l1 ++ combo :: l2 ∧
        ∀ c ∈ l1,
          combinedSpec parse prefs k budget c < combinedSpec parse prefs k budget combo := by
  have h1 : ¬ pool.length < k := not_lt.mpr hlen
  have h2 : ¬ (combinationsList k (List.range pool.length)).length > 10000 := by
    rw [length_combinationsList, List.length_range]
    exact not_lt.mpr hcap
  have hne : combinationsList k pool ≠ [] := by
    intro h
    have hl := length_combinationsList k pool
    rw [h] at hl
    have hpos := Nat.choose_pos hlen
    simp at hl
    omega
  obtain ⟨c0, cs, hc⟩ := List.exists_cons_of_ne_nil hne
  set f := comboCombined parse (buildScores prefs pool) k budget with hf
  have heq := getWeekly_enum_eq parse pool prefs k budget h1 h2 hc
  set best := bestFrom f c0 cs with hb
  obtain ⟨l1, l2, hdec, hlt⟩ := bestFrom_decomp f cs c0
  have hmembest : best ∈ combinationsList k pool := by
    rw [hc, hdec]
    exact List.mem_append_right _ (List.mem_cons_self _ _)
  have hbestsub : best ⊆ pool := (mem_combinationsList hmembest).1.subset
  have hspec_best : f best = combinedSpec parse prefs k budget best :=
    combinedSpec_eq parse prefs pool k budget hids hbestsub
  refine ⟨best, _, heq, hmembest, ?_, ?_⟩
  · intro c hcmem
    have hcsub : c ⊆ pool := (mem_combinationsList hcmem).1.subset
    rw [← combinedSpec_eq parse prefs pool k budget hids hcsub, ← hspec_best]
    rw [hc] at hcmem
    rcases List.mem_cons.mp hcmem with rfl | hmem
    · exact (bestFrom_le f cs c).1
    · exact (bestFrom_le f cs c0).2 c hmem
  · refine ⟨l1, l2, by rw [hc, hdec], ?_⟩
    intro c hcl1
    have hcmem : c ∈ combinationsList k pool := by
      rw [hc, hdec]
      exact List.mem_append_left _ hcl1
    have hcsub : c ⊆ pool := (mem_combinationsList hcmem).1.subset
    rw [← combinedSpec_eq parse prefs pool k budget hids hcsub, ← hspec_best]
    exact hlt c hcl1

/-- A three-recipe pool used by the C2 witness. -/
def samplePool : List Recipe := [sampleRecipe 1, sampleRecipe 2, sampleRecipe 3]

/-- C2 witness: a pool of three recipes with `k = 2` (3 combinations, well
under the ceiling) and distinct ids. -/
theorem C2_weekly_search_optimal_witness :
    0 < 2 ∧ 2 ≤ samplePool.length ∧ samplePool.length.choose 2 ≤ 10000 ∧
    (samplePool.map Recipe.id).Nodup ∧
    (∃ combo stats,
      get_weekly_recommendations noParse samplePool [] 2 20 = .ok (combo, stats) ∧
      combo ∈ combinationsList 2 samplePool ∧
      (∀ c ∈ combinationsList 2 samplePool,
        combinedSpec noParse [] 2 20 c ≤ combinedSpec noParse [] 2 20 combo) ∧
      ∃ l1 l2, combinationsList 2 samplePool = l1 ++ combo :: l2 ∧
        ∀ c ∈ l1, combinedSpec noParse [] 2 20 c < combinedSpec noParse [] 2 20 combo) :=
  ⟨by decide, by decide, by decide, by decide,
    C2_weekly_search_optimal noParse samplePool [] 2 20
      (by decide) (by decide) (by decide) (by decide)⟩

end WFD
